import Mathlib

/-!
Verification of the Cronbach's-Alpha optimizer (`src/app.py`).

The core of the repository is two Python functions:

* `calculate_cronbach_alpha(df)` — computes Cronbach's Alpha for a pandas
  DataFrame: drop incomplete rows, guard `item_count < 2` and
  `total_score_variance == 0` with a `0.0` sentinel, otherwise return
  `(k/(k-1)) * (1 - item_variances.sum()/total_score_variance)` with all
  variances unbiased (`ddof=1`).
* `optimize_scale(df, target)` — greedy backward elimination: while more
  than two columns remain, remove the column whose hypothetical removal
  maximizes alpha (Python `max` over the insertion-ordered score dict,
  i.e. first maximal item in current column order), recording a history of
  scenarios plus a running maximum scenario and a first-crossing target
  scenario.

The embedding below uses exact rationals.  A pandas float that may be NaN
is modelled as `Option ℚ` with `none` playing the role of NaN: pandas'
`var(ddof=1)` returns NaN when fewer than two values remain, every Python
comparison against NaN is `False`, and pandas' `Series.sum()` skips NaN
(`skipna=True`).  Missing entries of the input table are likewise `none`.
-/

namespace CronbachApp

/-- A pandas float value that may be NaN/missing: `none` models NaN. -/
abbrev Val := Option ℚ

/-- The input table: named columns (`names`, in order) and rows aligned by
position; entry `none` is a missing value.  Models the pandas DataFrame
restricted to what the two core functions observe. -/
structure DF where
  names : List ℕ
  rows : List (List Val)
deriving DecidableEq

/-- `df[ns]`: column selection in the order of `ns`, each row projected to
the positions of the requested names (pandas `df[list_of_columns]`). -/
def DF.select (df : DF) (ns : List ℕ) : DF :=
  { names := ns,
    rows := df.rows.map (fun r =>
      ns.filterMap (fun n =>
        (df.names.findIdx? (fun m => m == n)).bind (fun i => r.get? i))) }

/-- A row with no missing entry, as plain rationals; `none` when the row
contains any missing value. -/
def completeRow : List Val → Option (List ℚ)
  | [] => some []
  | none :: _ => none
  | some x :: r => (completeRow r).map (fun t => x :: t)

/-- `df.dropna()`: keep exactly the rows with no missing value, as rows of
plain rationals (complete-case filtering). -/
def DF.dropna (df : DF) : List (List ℚ) :=
  df.rows.filterMap completeRow

/-- Every row of the table has one entry per named column (a pandas
DataFrame is rectangular). -/
def DF.Rect (df : DF) : Prop :=
  ∀ r ∈ df.rows, r.length = df.names.length

instance (df : DF) : Decidable (DF.Rect df) := by
  unfold DF.Rect; infer_instance

/-- Arithmetic mean of a list of rationals (pandas `mean`). -/
def mean (xs : List ℚ) : ℚ := xs.sum / xs.length

/-- Unbiased sample variance formula: sum of squared deviations divided by
`n - 1` (the `ddof=1` estimator of pandas `var`). -/
def specVar (xs : List ℚ) : ℚ :=
  ((xs.map (fun x => (x - mean xs) ^ 2)).sum) / ((xs.length : ℚ) - 1)

/-- pandas `Series.var(ddof=1)`: NaN (`none`) when fewer than two values
are present, otherwise the unbiased sample variance. -/
def svar (xs : List ℚ) : Val :=
  if xs.length < 2 then none else some (specVar xs)

/-- Column `j` of a list of rows (pandas `axis=0` view of column `j`). -/
def colAt (rows : List (List ℚ)) (j : ℕ) : List ℚ :=
  rows.filterMap (fun r => r.get? j)

/-- pandas `Series.sum()` with its default `skipna=True`: NaN entries are
skipped, never propagated. -/
def nansum (l : List Val) : ℚ := (l.filterMap id).sum

/-- `calculate_cronbach_alpha(df)` from `src/app.py`:
`df_clean = df.dropna()`; `item_count < 2` returns the `0.0` sentinel;
per-column unbiased variances and the unbiased variance of the row sums;
`total_score_variance == 0` returns the `0.0` sentinel (NaN compares
unequal to `0`, so a NaN total variance falls through and the result is
NaN); otherwise the alpha formula, unclamped. -/
def calculate_cronbach_alpha (df : DF) : Val :=
  if df.names.length < 2 then some 0
  else
    (svar ((DF.dropna df).map List.sum)).bind (fun tv =>
      if tv = 0 then some 0
      else
        some (((df.names.length : ℚ) / ((df.names.length : ℚ) - 1)) *
          (1 - nansum ((List.range df.names.length).map
              (fun j => svar (colAt (DF.dropna df) j))) / tv)))

/-- One entry of the optimization history (`scenario` dict in
`optimize_scale`). -/
structure Scenario where
  step : ℕ
  removed_item : Option ℕ
  alpha : Val
  remaining_items : List ℕ
deriving DecidableEq

/-- Python `a < b` on floats where either side may be NaN: any comparison
involving NaN is `False`. -/
def nanLt (a b : Val) : Bool :=
  match a, b with
  | some x, some y => decide (x < y)
  | _, _ => false

/-- Python `a <= b` on floats where either side may be NaN. -/
def nanLe (a b : Val) : Bool :=
  match a, b with
  | some x, some y => decide (x ≤ y)
  | _, _ => false

/-- Python `a >= t` where `a` may be NaN and `t` is an actual number. -/
def nanGeQ (a : Val) (t : ℚ) : Bool :=
  match a with
  | some x => decide (t ≤ x)
  | none => false

/-- Hypothetical score of removing column `c`: alpha of the table
restricted to every other currently remaining column
(`temp_cols = [c for c in current_cols if c != col]`). -/
def itemScore (df : DF) (cols : List ℕ) (c : ℕ) : Val :=
  calculate_cronbach_alpha (df.select (cols.filter (fun x => x ≠ c)))

/-- The fold performed by Python's `max`: scan left to right, replacing
the current maximum only on a strictly greater key (NaN comparisons are
`False`), so the first maximal element wins. -/
def foldMax : List (ℕ × Val) → ℕ × Val → ℕ × Val
  | [], q => q
  | p :: l, q => foldMax l (if nanLt q.2 p.2 then p else q)

/-- `max(item_scores, key=item_scores.get)` together with its score: the
score dict is built in `current_cols` order, so Python `max` scans the
scores in that order with the first column as seed. -/
def bestItem (df : DF) (cols : List ℕ) : ℕ × Val :=
  match cols with
  | [] => (0, none)
  | c :: cs =>
      foldMax (cs.map (fun x => (x, itemScore df (c :: cs) x)))
        (c, itemScore df (c :: cs) c)

/-- The `while len(current_cols) > 2` loop of `optimize_scale`, with a
fuel argument (the starting column count suffices, since each iteration
removes one column).  State: remaining columns, next step number, history
so far, running best alpha, current max scenario, current target scenario.
Returns the Python triple `(history, target_reached_scenario,
max_alpha_scenario)`. -/
def optLoop (df : DF) (target : ℚ) :
    ℕ → List ℕ → ℕ → List Scenario → Val → Scenario → Option Scenario →
    List Scenario × Option Scenario × Scenario
  | 0, _, _, hist, _, maxS, tgtS => (hist, tgtS, maxS)
  | fuel + 1, cols, step, hist, bestA, maxS, tgtS =>
    if cols.length ≤ 2 then (hist, tgtS, maxS)
    else
      let p := bestItem df cols
      let cols2 := cols.erase p.1
      let scen : Scenario := ⟨step, some p.1, p.2, cols2⟩
      optLoop df target fuel cols2 (step + 1) (hist ++ [scen])
        (if nanLt bestA p.2 then p.2 else bestA)
        (if nanLt bestA p.2 then scen else maxS)
        (if tgtS.isNone && nanGeQ p.2 target then some scen else tgtS)

/-- `optimize_scale(df, target)` from `src/app.py`: step-0 scenario from
the full column list, initial max scenario, target scenario set at step 0
iff `initial_alpha >= target`, then the elimination loop. -/
def optimize_scale (df : DF) (target : ℚ) :
    List Scenario × Option Scenario × Scenario :=
  optLoop df target df.names.length df.names 1
    [⟨0, none, calculate_cronbach_alpha (df.select df.names), df.names⟩]
    (calculate_cronbach_alpha (df.select df.names))
    ⟨0, none, calculate_cronbach_alpha (df.select df.names), df.names⟩
    (if nanGeQ (calculate_cronbach_alpha (df.select df.names)) target then
      some ⟨0, none, calculate_cronbach_alpha (df.select df.names), df.names⟩
    else none)

/-- The alpha formula exactly as the spec words it: `(k / (k − 1)) * (1 −
(sum of per-column variances) / (total-score variance))`, every variance
the unbiased `n − 1` estimator over the complete rows. -/
def specAlpha (df : DF) : ℚ :=
  ((df.names.length : ℚ) / ((df.names.length : ℚ) - 1)) *
    (1 - ((List.range df.names.length).map
        (fun j => specVar (colAt (DF.dropna df) j))).sum /
      specVar ((DF.dropna df).map List.sum))

/-- A table of exactly two identical constant columns with `n` rows. -/
def constDF2 (v : ℚ) (n : ℕ) : DF :=
  ⟨[0, 1], List.replicate n [some v, some v]⟩

/-- A table of exactly three identical columns, each equal to `col`
(missing entries allowed, shared across the three columns). -/
def tripleDF (col : List Val) : DF :=
  ⟨[0, 1, 2], col.map (fun v => [v, v, v])⟩

/-- Sample table with a single column (violates the optimizer's
two-column precondition). -/
def sampleOneCol : DF := ⟨[5], [[some 1], [some 2]]⟩

/-- Sample rectangular table with two columns and three complete rows;
its alpha is `8/9`. -/
def sampleTwoCol : DF := ⟨[0, 1], [[some 1, some 2], [some 2, some 1], [some 4, some 5]]⟩

/-- Sample rectangular table with three columns and four complete rows. -/
def sampleThreeCol : DF :=
  ⟨[0, 1, 2],
    [[some 1, some 2, some 3], [some 2, some 4, some 5],
      [some 3, some 3, some 7], [some 4, some 6, some 8]]⟩

/-- Two anticorrelated columns: the step-0 alpha is `-2`, strictly
negative. -/
def negAlphaDF : DF := ⟨[0, 1], [[some 1, some 3], [some 2, some 1], [some 3, some 2]]⟩

/-- Three columns whose middle column is entirely missing: the removal
score of column 1 is a real number while the scores of columns 0 and 2
are NaN (their subsets keep the all-missing column, leaving zero complete
rows). -/
def allMissingMidDF : DF :=
  ⟨[0, 1, 2],
    [[some 1, none, some 2], [some 2, none, some 4], [some 3, none, some 5]]⟩

/-- Three columns whose first column is entirely missing: the step-0
alpha is NaN, but removing column 0 yields a real alpha, producing a
history that mixes NaN and real alphas. -/
def allMissingFirstDF : DF :=
  ⟨[0, 1, 2],
    [[none, some 1, some 2], [none, some 2, some 4], [none, some 3, some 5]]⟩

/-! ### Facts about the NaN-aware comparisons -/

lemma nanLt_isSome {a b : Val} (h : nanLt a b = true) :
    a.isSome = true ∧ b.isSome = true := by
  cases a <;> cases b <;> simp [nanLt] at h ⊢

lemma nanLe_refl {a : Val} (h : a.isSome = true) : nanLe a a = true := by
  cases a <;> simp [nanLe] at h ⊢

lemma nanLe_of_not_lt {a b : Val} (ha : a.isSome = true) (hb : b.isSome = true)
    (h : nanLt a b = false) : nanLe b a = true := by
  cases a <;> cases b <;> simp_all [nanLt, nanLe]

lemma nanLe_of_lt {a b : Val} (h : nanLt a b = true) : nanLe a b = true := by
  cases a <;> cases b <;> simp_all [nanLt, nanLe]
  linarith

lemma nanLt_trans {a b c : Val} (hab : nanLt a b = true) (hbc : nanLt b c = true) :
    nanLt a c = true := by
  cases a <;> cases b <;> cases c <;> simp_all [nanLt]
  linarith

lemma nanLe_lt_trans {a b c : Val} (hab : nanLe a b = true) (hbc : nanLt b c = true) :
    nanLt a c = true := by
  cases a <;> cases b <;> cases c <;> simp_all [nanLe, nanLt]
  linarith

lemma nanLe_trans {a b c : Val} (hab : nanLe a b = true) (hbc : nanLe b c = true) :
    nanLe a c = true := by
  cases a <;> cases b <;> cases c <;> simp_all [nanLe]
  linarith

lemma nanLt_ne {a b : Val} (h : nanLt a b = true) : a ≠ b := by
  cases a <;> cases b <;> simp_all [nanLt]
  intro h2
  simp [h2] at h

/-! ### The first-maximum fold behind Python's `max` -/

lemma foldMax_mem : ∀ (l : List (ℕ × Val)) (q : ℕ × Val), foldMax l q ∈ q :: l := by
  intro l
  induction l with
  | nil => intro q; simp [foldMax]
  | cons p t ih =>
    intro q
    have h := ih (if nanLt q.2 p.2 then p else q)
    by_cases hc : nanLt q.2 p.2 = true <;>
      simp only [foldMax, hc, if_pos, if_neg, Bool.not_eq_true, ite_true, ite_false] at h ⊢ <;>
      rcases List.mem_cons.mp h with h1 | h1 <;> simp [h1, List.mem_cons]

/-- Python's `max` scan computes the first maximal element: either the
seed beats (weakly) every scanned element, or the result splits the list
with every earlier element strictly below it (and the seed too) and every
later element weakly below it. -/
lemma foldMax_split :
    ∀ (l : List (ℕ × Val)) (q : ℕ × Val), q.2.isSome = true →
      (∀ p ∈ l, (p.2).isSome = true) →
      (foldMax l q = q ∧ ∀ p ∈ l, nanLe p.2 q.2 = true) ∨
      (∃ l₁ l₂, l = l₁ ++ foldMax l q :: l₂ ∧
        nanLt q.2 (foldMax l q).2 = true ∧
        (∀ p ∈ l₁, nanLt p.2 (foldMax l q).2 = true) ∧
        (∀ p ∈ l₂, nanLe p.2 (foldMax l q).2 = true)) := by
  intro l
  induction l with
  | nil => intro q _ _; left; exact ⟨rfl, by simp⟩
  | cons p t ih =>
    intro q hq hl
    have hp : (p.2).isSome = true := hl p (List.mem_cons_self p t)
    have hlt : ∀ r ∈ t, (r.2).isSome = true := fun r hr => hl r (List.mem_cons_of_mem p hr)
    by_cases hc : nanLt q.2 p.2 = true
    · have hfold : foldMax (p :: t) q = foldMax t p := by simp [foldMax, hc]
      rcases ih p hp hlt with ⟨he, hall⟩ | ⟨t₁, t₂, heq, hqlt, hpre, hsuf⟩
      · right
        refine ⟨[], t, ?_, ?_, by simp, ?_⟩
        · simp [hfold, he]
        · rw [hfold, he]; exact hc
        · intro r hr; rw [hfold, he]; exact hall r hr
      · right
        refine ⟨p :: t₁, t₂, ?_, ?_, ?_, ?_⟩
        · rw [hfold]; simpa using heq
        · exact nanLt_trans hc (hfold ▸ hqlt)
        · intro r hr
          rcases List.mem_cons.mp hr with h1 | h1
          · rw [h1, hfold]; exact hqlt
          · rw [hfold]; exact hpre r h1
        · intro r hr; rw [hfold]; exact hsuf r hr
    · have hc' : nanLt q.2 p.2 = false := by simpa using hc
      have hfold : foldMax (p :: t) q = foldMax t q := by simp [foldMax, hc']
      have hple : nanLe p.2 q.2 = true := nanLe_of_not_lt hq hp hc'
      rcases ih q hq hlt with ⟨he, hall⟩ | ⟨t₁, t₂, heq, hqlt, hpre, hsuf⟩
      · left
        refine ⟨by rw [hfold, he], ?_⟩
        intro r hr
        rcases List.mem_cons.mp hr with h1 | h1
        · rw [h1]; exact hple
        · exact hall r h1
      · right
        refine ⟨p :: t₁, t₂, ?_, ?_, ?_, ?_⟩
        · rw [hfold]; simpa using heq
        · rw [hfold]; exact hqlt
        · intro r hr
          rcases List.mem_cons.mp hr with h1 | h1
          · rw [h1, hfold]; exact nanLe_lt_trans hple hqlt
          · rw [hfold]; exact hpre r h1
        · intro r hr; rw [hfold]; exact hsuf r hr

lemma mem_map_pair {cols : List ℕ} {f : ℕ → Val} {q : ℕ × Val}
    (h : q ∈ cols.map (fun x => (x, f x))) : q.1 ∈ cols ∧ q.2 = f q.1 := by
  rcases List.mem_map.mp h with ⟨x, hx, hxq⟩
  rw [← hxq]
  exact ⟨hx, rfl⟩

lemma bestItem_mem {df : DF} {cols : List ℕ} (h : cols ≠ []) :
    (bestItem df cols).1 ∈ cols := by
  cases cols with
  | nil => exact absurd rfl h
  | cons c cs =>
    have hm := foldMax_mem (cs.map (fun x => (x, itemScore df (c :: cs) x)))
      (c, itemScore df (c :: cs) c)
    have : bestItem df (c :: cs) ∈
        (c :: cs).map (fun x => (x, itemScore df (c :: cs) x)) := by
      simpa [bestItem] using hm
    exact (mem_map_pair this).1

lemma filter_ne_eq_filter_bne (l : List ℕ) (a : ℕ) :
    l.filter (fun x => x ≠ a) = l.filter (fun x => x != a) :=
  List.filter_congr (fun x _ => by by_cases h : x = a <;> simp [h])

lemma erase_eq_filter_ne {l : List ℕ} (hnd : l.Nodup) (a : ℕ) :
    l.erase a = l.filter (fun x => x ≠ a) := by
  rw [hnd.erase_eq_filter a, filter_ne_eq_filter_bne]

/-! ### Unfolding the elimination loop -/

/-- The scenario recorded by one elimination step. -/
def stepScen (df : DF) (cols : List ℕ) (step : ℕ) : Scenario :=
  ⟨step, some (bestItem df cols).1, (bestItem df cols).2, cols.erase (bestItem df cols).1⟩

lemma optLoop_stop {df : DF} {target : ℚ} {fuel : ℕ} {cols : List ℕ} {step : ℕ}
    {hist : List Scenario} {bestA : Val} {maxS : Scenario} {tgtS : Option Scenario}
    (h : cols.length ≤ 2 ∨ fuel = 0) :
    optLoop df target fuel cols step hist bestA maxS tgtS = (hist, tgtS, maxS) := by
  cases fuel with
  | zero => simp [optLoop]
  | succ n =>
    rcases h with h | h
    · simp [optLoop, h]
    · exact absurd h (Nat.succ_ne_zero n)

lemma optLoop_succ {df : DF} {target : ℚ} {fuel : ℕ} {cols : List ℕ} {step : ℕ}
    {hist : List Scenario} {bestA : Val} {maxS : Scenario} {tgtS : Option Scenario}
    (h : ¬ cols.length ≤ 2) :
    optLoop df target (fuel + 1) cols step hist bestA maxS tgtS =
      optLoop df target fuel (cols.erase (bestItem df cols).1) (step + 1)
        (hist ++ [stepScen df cols step])
        (if nanLt bestA (bestItem df cols).2 then (bestItem df cols).2 else bestA)
        (if nanLt bestA (bestItem df cols).2 then stepScen df cols step else maxS)
        (if tgtS.isNone && nanGeQ (bestItem df cols).2 target then
          some (stepScen df cols step) else tgtS) := by
  simp [optLoop, h, stepScen]

lemma optLoop_prefix (df : DF) (target : ℚ) :
    ∀ (fuel : ℕ) (cols : List ℕ) (step : ℕ) (hist : List Scenario) (bestA : Val)
      (maxS : Scenario) (tgtS : Option Scenario),
      ∃ ext, (optLoop df target fuel cols step hist bestA maxS tgtS).1 = hist ++ ext := by
  intro fuel
  induction fuel with
  | zero =>
    intro cols step hist bestA maxS tgtS
    exact ⟨[], by rw [optLoop_stop (Or.inr rfl)]; simp⟩
  | succ n ih =>
    intro cols step hist bestA maxS tgtS
    by_cases hc : cols.length ≤ 2
    · exact ⟨[], by rw [optLoop_stop (Or.inl hc)]; simp⟩
    · rw [optLoop_succ hc]
      obtain ⟨ext, hext⟩ := ih (cols.erase (bestItem df cols).1) (step + 1)
        (hist ++ [stepScen df cols step]) _ _ _
      exact ⟨stepScen df cols step :: ext, by rw [hext]; simp⟩

lemma erase_best_length {df : DF} {cols : List ℕ} (h : ¬ cols.length ≤ 2) :
    (cols.erase (bestItem df cols).1).length + 1 = cols.length := by
  have hne : cols ≠ [] := by
    intro he
    rw [he] at h
    simp at h
  rw [List.length_erase_of_mem (bestItem_mem hne)]
  omega

/-- Shape of the part of the history appended by the loop: one scenario
per iteration, with consecutive step numbers, remaining-item counts
decreasing by exactly one, and every remaining-item list a sublist of the
starting columns (original relative order preserved). -/
lemma optLoop_shape (df : DF) (target : ℚ) :
    ∀ (fuel : ℕ) (cols : List ℕ) (step : ℕ) (hist : List Scenario) (bestA : Val)
      (maxS : Scenario) (tgtS : Option Scenario),
      cols.length ≤ fuel + 2 →
      ∃ ext, (optLoop df target fuel cols step hist bestA maxS tgtS).1 = hist ++ ext ∧
        ext.length = cols.length - 2 ∧
        (∀ i s, ext.get? i = some s →
          s.step = step + i ∧
          s.remaining_items.length + i + 1 = cols.length ∧
          List.Sublist s.remaining_items cols) := by
  intro fuel
  induction fuel with
  | zero =>
    intro cols step hist bestA maxS tgtS hfb
    refine ⟨[], by rw [optLoop_stop (Or.inr rfl)]; simp, by simp only [List.length_nil]; omega, by simp⟩
  | succ n ih =>
    intro cols step hist bestA maxS tgtS hfb
    by_cases hc : cols.length ≤ 2
    · refine ⟨[], by rw [optLoop_stop (Or.inl hc)]; simp, by simp only [List.length_nil]; omega, by simp⟩
    · rw [optLoop_succ hc]
      have hlen : (cols.erase (bestItem df cols).1).length + 1 = cols.length :=
        erase_best_length hc
      obtain ⟨ext, hext, hlen2, hprops⟩ := ih (cols.erase (bestItem df cols).1) (step + 1)
        (hist ++ [stepScen df cols step])
        (if nanLt bestA (bestItem df cols).2 then (bestItem df cols).2 else bestA)
        (if nanLt bestA (bestItem df cols).2 then stepScen df cols step else maxS)
        (if tgtS.isNone && nanGeQ (bestItem df cols).2 target then
          some (stepScen df cols step) else tgtS)
        (by omega)
      refine ⟨stepScen df cols step :: ext, ?_, ?_, ?_⟩
      · rw [hext]; simp
      · simp only [List.length_cons]; omega
      · intro i s hs
        cases i with
        | zero =>
          have hseq : s = stepScen df cols step := by
            simpa using hs.symm
          subst hseq
          refine ⟨by simp [stepScen], ?_, ?_⟩
          · simpa [stepScen] using hlen
          · simpa [stepScen] using List.erase_sublist (bestItem df cols).1 cols
        | succ j =>
          have hj : ext.get? j = some s := by simpa using hs
          obtain ⟨h1, h2, h3⟩ := hprops j s hj
          refine ⟨by omega, by omega, h3.trans (List.erase_sublist _ _)⟩

/-- Invariant of the running maximum: `max_alpha_scenario` is a history
entry, weakly dominates every history entry's alpha, and among ties has
the least step (later equal alphas never replace it, because the update
test `new_alpha > best_alpha` is strict). -/
lemma optLoop_max (df : DF) (target : ℚ) :
    ∀ (fuel : ℕ) (cols : List ℕ) (step : ℕ) (hist : List Scenario) (bestA : Val)
      (maxS : Scenario) (tgtS : Option Scenario) (h : List Scenario)
      (t : Option Scenario) (m : Scenario),
      optLoop df target fuel cols step hist bestA maxS tgtS = (h, t, m) →
      (∀ s ∈ h, (s.alpha).isSome = true) →
      maxS ∈ hist → bestA = maxS.alpha → maxS.step < step →
      (∀ s ∈ hist, s.step < step) →
      (∀ s ∈ hist, nanLe s.alpha bestA = true) →
      (∀ s ∈ hist, s.alpha = bestA → maxS.step ≤ s.step) →
      m ∈ h ∧ (∀ s ∈ h, nanLe s.alpha m.alpha = true) ∧
        (∀ s ∈ h, s.alpha = m.alpha → m.step ≤ s.step) := by
  intro fuel
  induction fuel with
  | zero =>
    intro cols step hist bestA maxS tgtS h t m heq hsome hmem hba hms hsteps hle htie
    rw [optLoop_stop (Or.inr rfl)] at heq
    obtain ⟨rfl, rfl, rfl⟩ : hist = h ∧ tgtS = t ∧ maxS = m := by
      refine ⟨congrArg Prod.fst heq, ?_, ?_⟩
      · exact congrArg (fun x => x.2.1) heq
      · exact congrArg (fun x => x.2.2) heq
    exact ⟨hmem, fun s hs => hba ▸ hle s hs, fun s hs hsa => htie s hs (hba ▸ hsa)⟩
  | succ n ih =>
    intro cols step hist bestA maxS tgtS h t m heq hsome hmem hba hms hsteps hle htie
    by_cases hc : cols.length ≤ 2
    · rw [optLoop_stop (Or.inl hc)] at heq
      obtain ⟨rfl, rfl, rfl⟩ : hist = h ∧ tgtS = t ∧ maxS = m := by
        refine ⟨congrArg Prod.fst heq, ?_, ?_⟩
        · exact congrArg (fun x => x.2.1) heq
        · exact congrArg (fun x => x.2.2) heq
      exact ⟨hmem, fun s hs => hba ▸ hle s hs, fun s hs hsa => htie s hs (hba ▸ hsa)⟩
    · rw [optLoop_succ hc] at heq
      -- the appended history is a prefix of the final history
      have hpre : ∃ ext, h = (hist ++ [stepScen df cols step]) ++ ext := by
        obtain ⟨ext, hext⟩ := optLoop_prefix df target n
          (cols.erase (bestItem df cols).1) (step + 1)
          (hist ++ [stepScen df cols step])
          (if nanLt bestA (bestItem df cols).2 then (bestItem df cols).2 else bestA)
          (if nanLt bestA (bestItem df cols).2 then stepScen df cols step else maxS)
          (if tgtS.isNone && nanGeQ (bestItem df cols).2 target then
            some (stepScen df cols step) else tgtS)
        exact ⟨ext, by rw [← hext, heq]⟩
      obtain ⟨ext, hh⟩ := hpre
      have hmemh : ∀ s ∈ hist ++ [stepScen df cols step], s ∈ h := by
        intro s hs
        rw [hh]
        exact List.mem_append_left _ hs
      have hscen_mem : stepScen df cols step ∈ hist ++ [stepScen df cols step] :=
        List.mem_append_right _ (List.mem_singleton_self _)
      have hscen_some : ((bestItem df cols).2).isSome = true := by
        have := hsome _ (hmemh _ hscen_mem)
        simpa [stepScen] using this
      have hbestA_some : bestA.isSome = true := by
        rw [hba]
        exact hsome _ (hmemh _ (List.mem_append_left _ hmem))
      by_cases hb : nanLt bestA (bestItem df cols).2 = true
      · -- running maximum strictly improved: the new scenario takes over
        rw [if_pos hb, if_pos hb] at heq
        refine ih _ _ (hist ++ [stepScen df cols step]) _ _ _ h t m heq hsome
          hscen_mem (by simp [stepScen]) (by simp [stepScen]) ?_ ?_ ?_
        · intro s hs
          rcases List.mem_append.mp hs with hs | hs
          · have := hsteps s hs
            omega
          · rw [List.mem_singleton.mp hs]
            simp [stepScen]
        · intro s hs
          rcases List.mem_append.mp hs with hs | hs
          · exact nanLe_of_lt (nanLe_lt_trans (hle s hs) hb)
          · rw [List.mem_singleton.mp hs]
            simpa [stepScen] using nanLe_refl hscen_some
        · intro s hs hsa
          rcases List.mem_append.mp hs with hs | hs
          · exact absurd (by simpa [stepScen] using hsa)
              (nanLt_ne (nanLe_lt_trans (hle s hs) hb))
          · rw [List.mem_singleton.mp hs]
      · -- no strict improvement: the old maximum is kept
        have hb' : nanLt bestA (bestItem df cols).2 = false := by simpa using hb
        rw [if_neg hb, if_neg hb] at heq
        refine ih _ _ (hist ++ [stepScen df cols step]) _ _ _ h t m heq hsome
          (List.mem_append_left _ hmem) hba (by omega) ?_ ?_ ?_
        · intro s hs
          rcases List.mem_append.mp hs with hs | hs
          · have := hsteps s hs
            omega
          · rw [List.mem_singleton.mp hs]
            simp [stepScen]
        · intro s hs
          rcases List.mem_append.mp hs with hs | hs
          · exact hle s hs
          · rw [List.mem_singleton.mp hs]
            simpa [stepScen] using nanLe_of_not_lt hbestA_some hscen_some hb'
        · intro s hs hsa
          rcases List.mem_append.mp hs with hs | hs
          · exact htie s hs hsa
          · rw [List.mem_singleton.mp hs] at hsa ⊢
            simp only [stepScen] at hsa ⊢
            omega

/-- Invariant of the first-crossing target scenario: once set it is never
overwritten, it is a history entry with alpha reaching the target, it has
the least step among such entries, and while unset no history entry
reaches the target. -/
lemma optLoop_target (df : DF) (target : ℚ) :
    ∀ (fuel : ℕ) (cols : List ℕ) (step : ℕ) (hist : List Scenario) (bestA : Val)
      (maxS : Scenario) (tgtS : Option Scenario) (h : List Scenario)
      (t : Option Scenario) (m : Scenario),
      optLoop df target fuel cols step hist bestA maxS tgtS = (h, t, m) →
      (∀ s ∈ hist, s.step < step) →
      (tgtS = none → ∀ s ∈ hist, nanGeQ s.alpha target = false) →
      (∀ s, tgtS = some s → s ∈ hist ∧ nanGeQ s.alpha target = true ∧
        ∀ u ∈ hist, nanGeQ u.alpha target = true → s.step ≤ u.step) →
      (t = none → ∀ s ∈ h, nanGeQ s.alpha target = false) ∧
        (∀ s, t = some s → s ∈ h ∧ nanGeQ s.alpha target = true ∧
          ∀ u ∈ h, nanGeQ u.alpha target = true → s.step ≤ u.step) := by
  intro fuel
  induction fuel with
  | zero =>
    intro cols step hist bestA maxS tgtS h t m heq hsteps hnone hsome
    rw [optLoop_stop (Or.inr rfl)] at heq
    obtain ⟨rfl, rfl, rfl⟩ : hist = h ∧ tgtS = t ∧ maxS = m := by
      refine ⟨congrArg Prod.fst heq, ?_, ?_⟩
      · exact congrArg (fun x => x.2.1) heq
      · exact congrArg (fun x => x.2.2) heq
    exact ⟨hnone, hsome⟩
  | succ n ih =>
    intro cols step hist bestA maxS tgtS h t m heq hsteps hnone hsome
    by_cases hc : cols.length ≤ 2
    · rw [optLoop_stop (Or.inl hc)] at heq
      obtain ⟨rfl, rfl, rfl⟩ : hist = h ∧ tgtS = t ∧ maxS = m := by
        refine ⟨congrArg Prod.fst heq, ?_, ?_⟩
        · exact congrArg (fun x => x.2.1) heq
        · exact congrArg (fun x => x.2.2) heq
      exact ⟨hnone, hsome⟩
    · rw [optLoop_succ hc] at heq
      have hsteps2 : ∀ s ∈ hist ++ [stepScen df cols step], s.step < step + 1 := by
        intro s hs
        rcases List.mem_append.mp hs with hs | hs
        · have := hsteps s hs
          omega
        · rw [List.mem_singleton.mp hs]
          simp [stepScen]
      cases htg : tgtS with
      | some s0 =>
        rw [htg] at heq
        simp only [Option.isNone_some, Bool.false_and, if_neg Bool.false_ne_true] at heq
        obtain ⟨hs0mem, hs0sat, hs0min⟩ := hsome s0 htg
        refine ih _ _ (hist ++ [stepScen df cols step]) _ _ _ h t m heq hsteps2
          (by intro hcon; exact absurd hcon (Option.some_ne_none s0)) ?_
        intro s hs
        obtain rfl : s0 = s := by
          have := Option.some.inj hs
          exact this
        refine ⟨List.mem_append_left _ hs0mem, hs0sat, ?_⟩
        intro u hu hsat
        rcases List.mem_append.mp hu with hu | hu
        · exact hs0min u hu hsat
        · rw [List.mem_singleton.mp hu]
          have := hsteps s0 hs0mem
          simp only [stepScen]
          omega
      | none =>
        rw [htg] at heq
        simp only [Option.isNone_none, Bool.true_and] at heq
        by_cases hsat : nanGeQ (bestItem df cols).2 target = true
        · rw [if_pos hsat] at heq
          refine ih _ _ (hist ++ [stepScen df cols step]) _ _ _ h t m heq hsteps2
            (by intro hcon; exact absurd hcon (Option.some_ne_none _)) ?_
          intro s hs
          obtain rfl : stepScen df cols step = s := Option.some.inj hs
          refine ⟨List.mem_append_right _ (List.mem_singleton_self _), ?_, ?_⟩
          · simpa [stepScen] using hsat
          · intro u hu husat
            rcases List.mem_append.mp hu with hu | hu
            · exact absurd husat (by simp [hnone htg u hu])
            · rw [List.mem_singleton.mp hu]
        · have hsat2 : nanGeQ (bestItem df cols).2 target = false := by simpa using hsat
          rw [hsat2, if_neg Bool.false_ne_true] at heq
          refine ih _ _ (hist ++ [stepScen df cols step]) _ _ _ h t m heq hsteps2 ?_
            (fun s hcon => absurd hcon (by simp))
          intro _ s hs
          rcases List.mem_append.mp hs with hs | hs
          · exact hnone htg s hs
          · rw [List.mem_singleton.mp hs]
            simpa [stepScen] using hsat2

/-- Once the target scenario is set, the loop returns it unchanged. -/
lemma optLoop_target_some (df : DF) (target : ℚ) :
    ∀ (fuel : ℕ) (cols : List ℕ) (step : ℕ) (hist : List Scenario) (bestA : Val)
      (maxS : Scenario) (s0 : Scenario),
      (optLoop df target fuel cols step hist bestA maxS (some s0)).2.1 = some s0 := by
  intro fuel
  induction fuel with
  | zero =>
    intro cols step hist bestA maxS s0
    rw [optLoop_stop (Or.inr rfl)]
  | succ n ih =>
    intro cols step hist bestA maxS s0
    by_cases hc : cols.length ≤ 2
    · rw [optLoop_stop (Or.inl hc)]
    · rw [optLoop_succ hc]
      simp only [Option.isNone_some, Bool.false_and, if_neg Bool.false_ne_true]
      exact ih _ _ _ _ _ s0

/-! ### Facts about the alpha computation -/

lemma svar_of_two_le {xs : List ℚ} (h : 2 ≤ xs.length) :
    svar xs = some (specVar xs) := by
  rw [svar, if_neg (by omega)]

lemma svar_short {xs : List ℚ} (h : xs.length < 2) : svar xs = none := by
  rw [svar, if_pos h]

lemma cca_of_lt_two {df : DF} (h : df.names.length < 2) :
    calculate_cronbach_alpha df = some 0 := by
  rw [calculate_cronbach_alpha, if_pos h]

lemma cca_total_nan {df : DF} (h2 : ¬ df.names.length < 2)
    (h : svar ((DF.dropna df).map List.sum) = none) :
    calculate_cronbach_alpha df = none := by
  rw [calculate_cronbach_alpha, if_neg h2, h, Option.none_bind]

lemma cca_total_zero {df : DF} (h : svar ((DF.dropna df).map List.sum) = some 0) :
    calculate_cronbach_alpha df = some 0 := by
  by_cases h2 : df.names.length < 2
  · exact cca_of_lt_two h2
  · rw [calculate_cronbach_alpha, if_neg h2, h, Option.some_bind, if_pos rfl]

lemma completeRow_length :
    ∀ {r : List Val} {r2 : List ℚ}, completeRow r = some r2 → r2.length = r.length := by
  intro r
  induction r with
  | nil =>
    intro r2 h
    simp only [completeRow, Option.some.injEq] at h
    simp [← h]
  | cons v tl ih =>
    intro r2 h
    cases v with
    | none => simp [completeRow] at h
    | some x =>
      simp only [completeRow, Option.map_eq_some'] at h
      obtain ⟨t2, ht2, hr2⟩ := h
      rw [← hr2]
      simp [ih ht2]

lemma dropna_row_length {df : DF} (hrect : DF.Rect df) :
    ∀ r ∈ DF.dropna df, r.length = df.names.length := by
  intro r hr
  obtain ⟨r0, hr0, hcr⟩ := List.mem_filterMap.mp hr
  rw [completeRow_length hcr]
  exact hrect r0 hr0

lemma colAt_length {rows : List (List ℚ)} {k : ℕ} (j : ℕ) (hj : j < k)
    (hall : ∀ r ∈ rows, r.length = k) : (colAt rows j).length = rows.length := by
  induction rows with
  | nil => simp [colAt]
  | cons r t ih =>
    have hr : r.length = k := hall r (List.mem_cons_self r t)
    have hget : r.get? j = some (r.get ⟨j, by omega⟩) := List.get?_eq_get (by omega)
    have ht : ∀ u ∈ t, u.length = k := fun u hu => hall u (List.mem_cons_of_mem r hu)
    have ihh := ih ht
    simp only [colAt] at ihh ⊢
    rw [List.filterMap_cons, hget]
    simp [ihh]
    intro a ha
    have hk2 : j < a.length := by rw [ht a ha]; exact hj
    rw [← List.get?_eq_getElem?, List.get?_eq_get hk2]
    rfl

lemma nansum_map_some (l : List ℕ) (f : ℕ → ℚ) :
    nansum (l.map (fun x => some (f x))) = (l.map f).sum := by
  induction l with
  | nil => simp [nansum]
  | cons a t ih => simp [nansum, List.filterMap_cons] at ih ⊢; rw [ih]

lemma dropna_constDF2 (v : ℚ) (n : ℕ) :
    DF.dropna (constDF2 v n) = List.replicate n [v, v] := by
  induction n with
  | zero => rfl
  | succ m ih =>
    simp only [constDF2, DF.dropna, List.replicate_succ, List.filterMap_cons] at ih ⊢
    rw [show completeRow [some v, some v] = some [v, v] by simp [completeRow]]
    rw [ih]

lemma svar_replicate {n : ℕ} (x : ℚ) (hn : 2 ≤ n) :
    svar (List.replicate n x) = some 0 := by
  rw [svar_of_two_le (by simpa using hn)]
  congr 1
  have hmean : mean (List.replicate n x) = x := by
    rw [mean, List.sum_replicate, List.length_replicate, nsmul_eq_mul, mul_comm,
      mul_div_assoc, div_self (by exact_mod_cast (by omega : n ≠ 0)), mul_one]
  rw [specVar, List.map_replicate, hmean]
  simp

/-! ### Claims about the alpha calculator -/

/-- C1.  On every rectangular matrix whose complete-case filtering leaves
`k ≥ 2` columns and at least two rows, with nonzero total-score variance,
`calculate_cronbach_alpha` returns exactly the spec formula
`(k/(k-1)) * (1 - (sum of per-column unbiased variances)/(unbiased
variance of row sums))`, with no clamping: the formula value is passed
through unchanged even outside `[0, 1]`. -/
theorem alpha_equals_spec_formula (df : DF) (hrect : DF.Rect df)
    (hk : 2 ≤ df.names.length) (hn : 2 ≤ (DF.dropna df).length)
    (hv : specVar ((DF.dropna df).map List.sum) ≠ 0) :
    calculate_cronbach_alpha df = some (specAlpha df) := by
  have htot : svar ((DF.dropna df).map List.sum) =
      some (specVar ((DF.dropna df).map List.sum)) :=
    svar_of_two_le (by simpa using hn)
  have hcols : ∀ j ∈ List.range df.names.length,
      svar (colAt (DF.dropna df) j) = some (specVar (colAt (DF.dropna df) j)) := by
    intro j hj
    apply svar_of_two_le
    rw [colAt_length j (List.mem_range.mp hj) (dropna_row_length hrect)]
    exact hn
  have hmap : (List.range df.names.length).map
        (fun j => svar (colAt (DF.dropna df) j)) =
      (List.range df.names.length).map
        (fun j => some (specVar (colAt (DF.dropna df) j))) :=
    List.map_congr_left hcols
  rw [calculate_cronbach_alpha, if_neg (by omega), htot, Option.some_bind,
    if_neg hv, hmap, nansum_map_some]
  rfl

/-- C1 witness: a concrete rectangular table on which the formula theorem
applies; its alpha is the exact spec-formula value. -/
theorem alpha_equals_spec_formula_witness :
    DF.Rect sampleTwoCol ∧ 2 ≤ sampleTwoCol.names.length ∧
      2 ≤ (DF.dropna sampleTwoCol).length ∧
      specVar ((DF.dropna sampleTwoCol).map List.sum) ≠ 0 ∧
      calculate_cronbach_alpha sampleTwoCol = some (specAlpha sampleTwoCol) := by
  have h1 : DF.Rect sampleTwoCol := by decide
  have h2 : 2 ≤ sampleTwoCol.names.length := by decide
  have h3 : 2 ≤ (DF.dropna sampleTwoCol).length := by decide
  have h4 : specVar ((DF.dropna sampleTwoCol).map List.sum) ≠ 0 := by
    norm_num [sampleTwoCol, DF.dropna, completeRow, specVar, mean,
      List.filterMap_cons]
  exact ⟨h1, h2, h3, h4, alpha_equals_spec_formula sampleTwoCol h1 h2 h3 h4⟩

/-- C8.  On every matrix with at least two columns whose complete-case
filtering leaves fewer than two rows, the result is NaN (`none`), not the
`0.0` sentinel, and no exception: the NaN total-score variance fails the
`== 0` test and propagates through the formula. -/
theorem nan_when_too_few_rows (df : DF) (hk : 2 ≤ df.names.length)
    (hn : (DF.dropna df).length < 2) :
    calculate_cronbach_alpha df = none :=
  cca_total_nan (by omega) (svar_short (by simpa using hn))

/-- C8 witness: two columns, one complete row — the result is NaN. -/
theorem nan_when_too_few_rows_witness :
    2 ≤ (⟨[0, 1], [[some 1, some 2], [some 3, none]]⟩ : DF).names.length ∧
      (DF.dropna ⟨[0, 1], [[some 1, some 2], [some 3, none]]⟩).length < 2 ∧
      calculate_cronbach_alpha ⟨[0, 1], [[some 1, some 2], [some 3, none]]⟩ = none :=
  ⟨by decide, by decide,
    nan_when_too_few_rows ⟨[0, 1], [[some 1, some 2], [some 3, none]]⟩
      (by decide) (by decide)⟩

/-- C6 counterexample: a matrix of exactly two identical constant columns
with a single (complete) row does NOT return the `0.0` sentinel — the
total-score variance over one row is NaN, so the result is NaN. -/
theorem constant_columns_counterexample :
    calculate_cronbach_alpha ⟨[0, 1], [[some 1, some 1]]⟩ ≠ some 0 := by
  decide

/-- C6 (amended).  `calculate_cronbach_alpha` never raises (it is a total
function) and returns the `0.0` sentinel when fewer than two columns
remain, or when the total-score variance is exactly zero; in particular on
any matrix of exactly two identical constant columns with at least two
(complete) rows.  With fewer than two complete rows the constant-column
case instead yields NaN (see the counterexample and C8). -/
theorem sentinel_zero_guards :
    (∀ df : DF, df.names.length < 2 → calculate_cronbach_alpha df = some 0) ∧
    (∀ df : DF, svar ((DF.dropna df).map List.sum) = some 0 →
      calculate_cronbach_alpha df = some 0) ∧
    (∀ (v : ℚ) (n : ℕ), 2 ≤ n → calculate_cronbach_alpha (constDF2 v n) = some 0) := by
  refine ⟨fun df h => cca_of_lt_two h, fun df h => cca_total_zero h, ?_⟩
  intro v n hn
  apply cca_total_zero
  rw [dropna_constDF2, List.map_replicate]
  exact svar_replicate _ hn

/-- C6 witness: the guards fire on a one-column table and on a
two-identical-constant-column table with three rows. -/
theorem sentinel_zero_guards_witness :
    calculate_cronbach_alpha ⟨[7], [[some 1], [some 2]]⟩ = some 0 ∧
      calculate_cronbach_alpha (constDF2 5 3) = some 0 :=
  ⟨sentinel_zero_guards.1 ⟨[7], [[some 1], [some 2]]⟩ (by decide),
    sentinel_zero_guards.2.2 5 3 (by decide)⟩

/-! ### Claims about the optimizer -/

/-- C7 counterexample: on a one-column table, `optimize_scale` raises
nothing and silently returns a single-entry history whose step-0 scenario
carries the `0.0` sentinel alpha — there is no precondition check. -/
theorem no_precondition_error_counterexample :
    (optimize_scale sampleOneCol (7/10)).1 = [⟨0, none, some 0, [5]⟩] := by
  norm_num [optimize_scale, sampleOneCol, optLoop, nanGeQ, DF.select,
    calculate_cronbach_alpha, DF.dropna, completeRow, List.filterMap_cons,
    List.findIdx?]

/-- C7 (amended).  With fewer than two starting columns `optimize_scale`
does not raise: it silently produces a single-entry history whose alpha is
the `0.0` sentinel, and that entry is also the returned max scenario. -/
theorem silent_degradation_below_two_columns (df : DF) (target : ℚ)
    (h : df.names.length < 2) :
    (optimize_scale df target).1 = [⟨0, none, some 0, df.names⟩] ∧
    (optimize_scale df target).2.2 = ⟨0, none, some 0, df.names⟩ := by
  have ha : calculate_cronbach_alpha (df.select df.names) = some 0 :=
    cca_of_lt_two h
  constructor
  · simp only [optimize_scale, ha]
    rw [optLoop_stop (Or.inl (by omega))]
  · simp only [optimize_scale, ha]
    rw [optLoop_stop (Or.inl (by omega))]

/-- C7 witness: the amended behaviour on a concrete one-column table. -/
theorem silent_degradation_witness :
    (optimize_scale ⟨[9], [[some 4], [some 6]]⟩ 1).1 =
      [⟨0, none, some 0, [9]⟩] :=
  (silent_degradation_below_two_columns ⟨[9], [[some 4], [some 6]]⟩ 1 (by decide)).1

/-- C3.  For every table with `k ≥ 2` columns the optimizer terminates
with a history of length exactly `k - 1`; the entry at index `s` has step
`s` and exactly `k - s` remaining items, in original relative order
(a sublist of the original column list); the entry at index `k - 2` (the
final one) has exactly two remaining items; and with exactly two columns
the loop runs zero iterations, leaving only the step-0 entry. -/
theorem history_shape (df : DF) (target : ℚ) (hk : 2 ≤ df.names.length) :
    (optimize_scale df target).1.length = df.names.length - 1 ∧
    (∀ i s, (optimize_scale df target).1.get? i = some s →
      s.step = i ∧ s.remaining_items.length + i = df.names.length ∧
      List.Sublist s.remaining_items df.names) ∧
    (∀ s, (optimize_scale df target).1.get? (df.names.length - 2) = some s →
      s.remaining_items.length = 2) ∧
    (df.names.length = 2 →
      (optimize_scale df target).1 =
        [⟨0, none, calculate_cronbach_alpha (df.select df.names), df.names⟩]) := by
  obtain ⟨ext, hext, hlen, hprops⟩ := optLoop_shape df target df.names.length df.names 1
    [⟨0, none, calculate_cronbach_alpha (df.select df.names), df.names⟩]
    (calculate_cronbach_alpha (df.select df.names))
    ⟨0, none, calculate_cronbach_alpha (df.select df.names), df.names⟩
    (if nanGeQ (calculate_cronbach_alpha (df.select df.names)) target then
      some ⟨0, none, calculate_cronbach_alpha (df.select df.names), df.names⟩
    else none)
    (by omega)
  have hh : (optimize_scale df target).1 =
      ⟨0, none, calculate_cronbach_alpha (df.select df.names), df.names⟩ :: ext := by
    rw [show (optimize_scale df target).1 =
      [(⟨0, none, calculate_cronbach_alpha (df.select df.names), df.names⟩ : Scenario)] ++ ext
      from hext]
    simp
  have hpart2 : ∀ i s, (optimize_scale df target).1.get? i = some s →
      s.step = i ∧ s.remaining_items.length + i = df.names.length ∧
      List.Sublist s.remaining_items df.names := by
    intro i s hs
    rw [hh] at hs
    cases i with
    | zero =>
      obtain rfl : (⟨0, none, calculate_cronbach_alpha (df.select df.names), df.names⟩ :
          Scenario) = s := by simpa using hs
      exact ⟨rfl, by simp, List.Sublist.refl _⟩
    | succ j =>
      have hj : ext.get? j = some s := by simpa using hs
      obtain ⟨h1, h2, h3⟩ := hprops j s hj
      exact ⟨by omega, by omega, h3⟩
  refine ⟨by rw [hh]; simp only [List.length_cons]; omega, hpart2, ?_, ?_⟩
  · intro s hs
    have := (hpart2 (df.names.length - 2) s hs).2.1
    omega
  · intro h2
    simp only [optimize_scale]
    rw [optLoop_stop (Or.inl (by omega))]

/-- C3 witness: on the three-column sample the history has length two. -/
theorem history_shape_witness :
    2 ≤ sampleThreeCol.names.length ∧
      (optimize_scale sampleThreeCol (7/10)).1.length =
        sampleThreeCol.names.length - 1 :=
  ⟨by decide, (history_shape sampleThreeCol (7/10) (by decide)).1⟩

/-- C9 counterexample: on the anticorrelated sample the step-0 alpha is
`-2 < 0`, so with target `0.0` the returned target scenario is absent even
though `History[0]` exists — the claim "always equals `History[0]`
regardless of the data" is false. -/
theorem target_zero_counterexample :
    (optimize_scale negAlphaDF 0).2.1 = none ∧
      (optimize_scale negAlphaDF 0).1.get? 0 =
        some ⟨0, none, some (-2), [0, 1]⟩ := by
  constructor <;>
    norm_num [optimize_scale, negAlphaDF, optLoop, nanGeQ, DF.select,
      calculate_cronbach_alpha, DF.dropna, completeRow, List.filterMap_cons,
      List.findIdx?, svar, specVar, mean, nansum, colAt, List.range_succ]

/-- C9 (amended).  With target `0.0`, whenever the step-0 alpha is an
actual number that is `≥ 0` (which the comparison `initial_alpha >= 0.0`
requires — a negative or NaN step-0 alpha falsifies it), the returned
target scenario is exactly the step-0 scenario `History[0]`. -/
theorem target_zero_is_step0 (df : DF) (hk : 2 ≤ df.names.length)
    (h0 : nanGeQ (calculate_cronbach_alpha (df.select df.names)) 0 = true) :
    (optimize_scale df 0).2.1 =
      some ⟨0, none, calculate_cronbach_alpha (df.select df.names), df.names⟩ ∧
    (optimize_scale df 0).1.get? 0 =
      some ⟨0, none, calculate_cronbach_alpha (df.select df.names), df.names⟩ := by
  constructor
  · simp only [optimize_scale, h0, if_pos]
    exact optLoop_target_some df 0 _ _ _ _ _ _ _
  · obtain ⟨ext, hext⟩ := optLoop_prefix df 0 df.names.length df.names 1
      [⟨0, none, calculate_cronbach_alpha (df.select df.names), df.names⟩]
      (calculate_cronbach_alpha (df.select df.names))
      ⟨0, none, calculate_cronbach_alpha (df.select df.names), df.names⟩
      (if nanGeQ (calculate_cronbach_alpha (df.select df.names)) 0 then
        some ⟨0, none, calculate_cronbach_alpha (df.select df.names), df.names⟩
      else none)
    rw [show (optimize_scale df 0).1 =
      [(⟨0, none, calculate_cronbach_alpha (df.select df.names), df.names⟩ : Scenario)] ++ ext
      from hext]
    simp

/-- C9 witness: on the two-column sample (alpha `8/9 ≥ 0`) the target-0
scenario is the step-0 scenario. -/
theorem target_zero_is_step0_witness :
    (optimize_scale sampleTwoCol 0).2.1 =
      some ⟨0, none,
        calculate_cronbach_alpha (DF.select sampleTwoCol sampleTwoCol.names),
        sampleTwoCol.names⟩ :=
  (target_zero_is_step0 sampleTwoCol (by decide)
    (by norm_num [sampleTwoCol, nanGeQ, DF.select, calculate_cronbach_alpha,
      DF.dropna, completeRow, List.filterMap_cons, List.findIdx?, svar, specVar,
      mean, nansum, colAt, List.range_succ])).1

/-- C2.  In each iteration of the elimination loop (remaining column list
`cols`, `|cols| > 2`, distinct names, all hypothetical scores actual
numbers), the selected item is a member of `cols` with its recorded alpha
equal to its hypothetical-removal score, that recorded alpha equals the
alpha of the matrix restricted to the surviving items (the erased list),
and `cols` maps to a score list split `l₁ ++ best :: l₂` where every
earlier item scores strictly below the best (first-maximal tie-break in
the current remaining order) and every later item scores no higher. -/
theorem greedy_selection (df : DF) (cols : List ℕ) (hlen : 2 < cols.length)
    (hnd : cols.Nodup)
    (hsome : ∀ c ∈ cols, (itemScore df cols c).isSome = true) :
    (bestItem df cols).1 ∈ cols ∧
    (bestItem df cols).2 = itemScore df cols (bestItem df cols).1 ∧
    calculate_cronbach_alpha
        (df.select (cols.erase (bestItem df cols).1)) = (bestItem df cols).2 ∧
    ∃ l₁ l₂,
      cols.map (fun c => (c, itemScore df cols c)) = l₁ ++ (bestItem df cols) :: l₂ ∧
      (∀ q ∈ l₁, nanLt q.2 (bestItem df cols).2 = true) ∧
      (∀ q ∈ l₂, nanLe q.2 (bestItem df cols).2 = true) := by
  cases cols with
  | nil => simp at hlen
  | cons c cs =>
    have hq : ((c, itemScore df (c :: cs) c).2).isSome = true :=
      hsome c (List.mem_cons_self c cs)
    have hl : ∀ p ∈ cs.map (fun x => (x, itemScore df (c :: cs) x)),
        (p.2).isSome = true := by
      intro p hp
      obtain ⟨hp1, hp2⟩ := mem_map_pair hp
      rw [hp2]
      exact hsome p.1 (List.mem_cons_of_mem c hp1)
    have hbi : bestItem df (c :: cs) =
        foldMax (cs.map (fun x => (x, itemScore df (c :: cs) x)))
          (c, itemScore df (c :: cs) c) := rfl
    have hsplit : ∃ l₁ l₂,
        (c :: cs).map (fun x => (x, itemScore df (c :: cs) x)) =
          l₁ ++ (bestItem df (c :: cs)) :: l₂ ∧
        (∀ q ∈ l₁, nanLt q.2 (bestItem df (c :: cs)).2 = true) ∧
        (∀ q ∈ l₂, nanLe q.2 (bestItem df (c :: cs)).2 = true) := by
      rcases foldMax_split (cs.map (fun x => (x, itemScore df (c :: cs) x)))
          (c, itemScore df (c :: cs) c) hq hl with ⟨he, hall⟩ | ⟨l₁, l₂, heq, hqlt, hpre, hsuf⟩
      · refine ⟨[], cs.map (fun x => (x, itemScore df (c :: cs) x)), ?_, by simp, ?_⟩
        · rw [List.map_cons, hbi, he]
          rfl
        · rw [hbi, he]
          exact hall
      · refine ⟨(c, itemScore df (c :: cs) c) :: l₁, l₂, ?_, ?_, ?_⟩
        · rw [List.map_cons, hbi, List.cons_append, ← heq]
        · intro q hq2
          rcases List.mem_cons.mp hq2 with hq2 | hq2
          · rw [hq2, hbi]
            exact hqlt
          · rw [hbi]
            exact hpre q hq2
        · intro q hq2
          rw [hbi]
          exact hsuf q hq2
    have hmem : bestItem df (c :: cs) ∈
        (c :: cs).map (fun x => (x, itemScore df (c :: cs) x)) := by
      obtain ⟨l₁, l₂, heq, _, _⟩ := hsplit
      rw [heq]
      exact List.mem_append_right _ (List.mem_cons_self _ _)
    obtain ⟨hmc, hms⟩ := mem_map_pair hmem
    refine ⟨hmc, hms, ?_, hsplit⟩
    rw [erase_eq_filter_ne hnd]
    rw [hms]
    rfl

/-- C2 witness: on the three-column sample the loop-selected item is a
member, its recorded alpha is its removal score, and that alpha equals the
alpha of the surviving two columns. -/
theorem greedy_selection_witness :
    (bestItem sampleThreeCol [0, 1, 2]).1 ∈ ([0, 1, 2] : List ℕ) ∧
    (bestItem sampleThreeCol [0, 1, 2]).2 =
      itemScore sampleThreeCol [0, 1, 2] (bestItem sampleThreeCol [0, 1, 2]).1 ∧
    calculate_cronbach_alpha (sampleThreeCol.select
        (([0, 1, 2] : List ℕ).erase (bestItem sampleThreeCol [0, 1, 2]).1)) =
      (bestItem sampleThreeCol [0, 1, 2]).2 := by
  have h := greedy_selection sampleThreeCol [0, 1, 2] (by decide) (by decide)
    (by
      intro c hc
      fin_cases hc <;>
        norm_num [itemScore, sampleThreeCol, DF.select, calculate_cronbach_alpha,
          DF.dropna, completeRow, List.filterMap_cons, List.findIdx?, svar,
          specVar, mean, nansum, colAt, List.range_succ])
  exact ⟨h.1, h.2.1, h.2.2.1⟩

/-- C4.  Whenever every history alpha is an actual number, the returned
max scenario is a history entry whose alpha weakly dominates every history
entry, and among entries attaining that alpha it has the least step. -/
theorem max_scenario_is_max (df : DF) (target : ℚ) (hk : 2 ≤ df.names.length)
    (hsome : ∀ s ∈ (optimize_scale df target).1, (s.alpha).isSome = true) :
    (optimize_scale df target).2.2 ∈ (optimize_scale df target).1 ∧
    (∀ s ∈ (optimize_scale df target).1,
      nanLe s.alpha ((optimize_scale df target).2.2).alpha = true) ∧
    (∀ s ∈ (optimize_scale df target).1,
      s.alpha = ((optimize_scale df target).2.2).alpha →
        ((optimize_scale df target).2.2).step ≤ s.step) := by
  obtain ⟨ext, hext⟩ := optLoop_prefix df target df.names.length df.names 1
    [⟨0, none, calculate_cronbach_alpha (df.select df.names), df.names⟩]
    (calculate_cronbach_alpha (df.select df.names))
    ⟨0, none, calculate_cronbach_alpha (df.select df.names), df.names⟩
    (if nanGeQ (calculate_cronbach_alpha (df.select df.names)) target then
      some ⟨0, none, calculate_cronbach_alpha (df.select df.names), df.names⟩
    else none)
  have hs0mem : (⟨0, none, calculate_cronbach_alpha (df.select df.names), df.names⟩ :
      Scenario) ∈ (optimize_scale df target).1 := by
    rw [show (optimize_scale df target).1 =
      [(⟨0, none, calculate_cronbach_alpha (df.select df.names), df.names⟩ : Scenario)] ++ ext
      from hext]
    simp
  have hs0some : (calculate_cronbach_alpha (df.select df.names)).isSome = true := by
    simpa using hsome _ hs0mem
  exact optLoop_max df target df.names.length df.names 1
    [⟨0, none, calculate_cronbach_alpha (df.select df.names), df.names⟩]
    (calculate_cronbach_alpha (df.select df.names))
    ⟨0, none, calculate_cronbach_alpha (df.select df.names), df.names⟩
    (if nanGeQ (calculate_cronbach_alpha (df.select df.names)) target then
      some ⟨0, none, calculate_cronbach_alpha (df.select df.names), df.names⟩
    else none)
    (optimize_scale df target).1 (optimize_scale df target).2.1
    (optimize_scale df target).2.2 rfl hsome
    (List.mem_singleton_self _) rfl (by simp)
    (by intro s hs; rw [List.mem_singleton.mp hs]; simp)
    (by intro s hs; rw [List.mem_singleton.mp hs]; exact nanLe_refl hs0some)
    (by intro s hs _; rw [List.mem_singleton.mp hs])

/-- C4 witness: on the two-column sample the max scenario is a history
entry. -/
theorem max_scenario_is_max_witness :
    (optimize_scale sampleTwoCol (7/10)).2.2 ∈ (optimize_scale sampleTwoCol (7/10)).1 :=
  (max_scenario_is_max sampleTwoCol (7/10) (by decide)
    (by
      norm_num [optimize_scale, sampleTwoCol, optLoop, nanGeQ, DF.select,
        calculate_cronbach_alpha, DF.dropna, completeRow, List.filterMap_cons,
        List.findIdx?, svar, specVar, mean, nansum, colAt, List.range_succ])).1

/-- C5.  If the returned target scenario is absent, no history entry
reaches the target (under the code's NaN-rejecting `>=`); if present, it
is a history entry reaching the target with the least step among all such
entries — the first crossing, never overwritten. -/
theorem target_scenario_first_crossing (df : DF) (target : ℚ)
    (hk : 2 ≤ df.names.length) :
    ((optimize_scale df target).2.1 = none →
      ∀ s ∈ (optimize_scale df target).1, nanGeQ s.alpha target = false) ∧
    (∀ s, (optimize_scale df target).2.1 = some s →
      s ∈ (optimize_scale df target).1 ∧ nanGeQ s.alpha target = true ∧
      ∀ u ∈ (optimize_scale df target).1,
        nanGeQ u.alpha target = true → s.step ≤ u.step) := by
  apply optLoop_target df target df.names.length df.names 1
    [⟨0, none, calculate_cronbach_alpha (df.select df.names), df.names⟩]
    (calculate_cronbach_alpha (df.select df.names))
    ⟨0, none, calculate_cronbach_alpha (df.select df.names), df.names⟩
    (if nanGeQ (calculate_cronbach_alpha (df.select df.names)) target then
      some ⟨0, none, calculate_cronbach_alpha (df.select df.names), df.names⟩
    else none)
    (optimize_scale df target).1 (optimize_scale df target).2.1
    (optimize_scale df target).2.2 rfl
    (by intro s hs; rw [List.mem_singleton.mp hs]; simp)
  · by_cases h0 : nanGeQ (calculate_cronbach_alpha (df.select df.names)) target = true
    · rw [if_pos h0]
      intro hcon
      exact absurd hcon (Option.some_ne_none _)
    · rw [if_neg h0]
      intro _ s hs
      rw [List.mem_singleton.mp hs]
      simpa using h0
  · by_cases h0 : nanGeQ (calculate_cronbach_alpha (df.select df.names)) target = true
    · rw [if_pos h0]
      intro s hs
      obtain rfl : (⟨0, none, calculate_cronbach_alpha (df.select df.names), df.names⟩ :
          Scenario) = s := Option.some.inj hs
      refine ⟨List.mem_singleton_self _, by simpa using h0, ?_⟩
      intro u hu _
      rw [List.mem_singleton.mp hu]
    · rw [if_neg h0]
      intro s hs
      exact absurd hs (by simp)

/-- C5 witness: on the two-column sample with target `7/10` the returned
target scenario is the step-0 entry, a member of the history reaching the
target. -/
theorem target_scenario_first_crossing_witness :
    (⟨0, none, some (8/9), [0, 1]⟩ : Scenario) ∈ (optimize_scale sampleTwoCol (7/10)).1 ∧
    nanGeQ (⟨0, none, some (8/9), ([0, 1] : List ℕ)⟩ : Scenario).alpha (7/10) = true := by
  have ht : (optimize_scale sampleTwoCol (7/10)).2.1 =
      some ⟨0, none, some (8/9), [0, 1]⟩ := by
    norm_num [optimize_scale, sampleTwoCol, optLoop, nanGeQ, DF.select,
      calculate_cronbach_alpha, DF.dropna, completeRow, List.filterMap_cons,
      List.findIdx?, svar, specVar, mean, nansum, colAt, List.range_succ]
  have h := (target_scenario_first_crossing sampleTwoCol (7/10) (by decide)).2 _ ht
  exact ⟨h.1, h.2.1⟩

/-! ### C10: three identical columns give alpha exactly 1 -/

lemma sum_map_mul_id (c : ℚ) (l : List ℚ) :
    (l.map (fun x => c * x)).sum = c * l.sum := by
  induction l with
  | nil => simp
  | cons a t ih => simp [mul_add, ih]

lemma sum_map_mul (c : ℚ) (f : ℚ → ℚ) (l : List ℚ) :
    (l.map (fun x => c * f x)).sum = c * (l.map f).sum := by
  induction l with
  | nil => simp
  | cons a t ih => simp [mul_add, ih]

/-- Scaling every value by `c` multiplies the sample variance by `c²`. -/
lemma svar_smul (c : ℚ) (l : List ℚ) :
    svar (l.map (fun x => c * x)) = (svar l).map (fun w => c ^ 2 * w) := by
  by_cases h : l.length < 2
  · rw [svar_short (by simpa using h), svar_short h]
    rfl
  · have h2 : 2 ≤ l.length := by omega
    rw [svar_of_two_le (by simpa using h2), svar_of_two_le h2, Option.map_some']
    congr 1
    have hmean : mean (l.map (fun x => c * x)) = c * mean l := by
      rw [mean, mean, sum_map_mul_id, List.length_map, mul_div_assoc]
    rw [specVar, specVar, hmean, List.map_map, List.length_map]
    have hdev : l.map ((fun x => (x - c * mean l) ^ 2) ∘ fun x => c * x) =
        l.map (fun x => c ^ 2 * ((x - mean l) ^ 2)) := by
      apply List.map_congr_left
      intro a _
      simp only [Function.comp]
      ring
    rw [hdev, sum_map_mul (c ^ 2) (fun x => (x - mean l) ^ 2) l, mul_div_assoc]

lemma dropna_tripleDF (col : List Val) :
    DF.dropna (tripleDF col) = (col.filterMap id).map (fun v => [v, v, v]) := by
  induction col with
  | nil => rfl
  | cons v t ih =>
    cases v with
    | none =>
      simpa [tripleDF, DF.dropna, List.filterMap_cons, completeRow] using ih
    | some x =>
      simp only [tripleDF, DF.dropna, List.map_cons, List.filterMap_cons] at ih ⊢
      rw [show completeRow [some x, some x, some x] = some [x, x, x] by
        simp [completeRow]]
      simp only [List.filterMap_cons, id]
      rw [List.map_cons]
      exact congrArg (fun u => [x, x, x] :: u) ih

lemma colAt_triple (l : List ℚ) (j : ℕ) (hj : j < 3) :
    colAt (l.map (fun x => [x, x, x])) j = l := by
  rw [colAt, List.filterMap_map]
  have hg : ((fun r : List ℚ => r.get? j) ∘ fun x : ℚ => [x, x, x]) =
      fun a : ℚ => some a := by
    funext a
    show ([a, a, a] : List ℚ).get? j = some a
    interval_cases j <;> rfl
  rw [hg]
  simp

/-- C10.  Every matrix of exactly three identical columns with at least
two complete rows and nonzero column variance has alpha exactly 1 in exact
arithmetic: `k/(k-1) * (1 - k*v/(k²*v)) = 1` for `k = 3`. -/
theorem triple_identical_columns_alpha_one (col : List Val)
    (hn : 2 ≤ (col.filterMap id).length)
    (hv : specVar (col.filterMap id) ≠ 0) :
    calculate_cronbach_alpha (tripleDF col) = some 1 := by
  have hl : DF.dropna (tripleDF col) = (col.filterMap id).map (fun v => [v, v, v]) :=
    dropna_tripleDF col
  have htotals : (DF.dropna (tripleDF col)).map List.sum =
      (col.filterMap id).map (fun x => 3 * x) := by
    rw [hl, List.map_map]
    apply List.map_congr_left
    intro a _
    simp only [Function.comp, List.sum_cons, List.sum_nil]
    ring
  have hsv : svar ((DF.dropna (tripleDF col)).map List.sum) =
      some (9 * specVar (col.filterMap id)) := by
    rw [htotals, svar_smul 3 (col.filterMap id), svar_of_two_le hn, Option.map_some']
    norm_num
  have h3 : (tripleDF col).names.length = 3 := rfl
  have hk2 : ¬ (tripleDF col).names.length < 2 := by rw [h3]; omega
  have hne : (9 : ℚ) * specVar (col.filterMap id) ≠ 0 := by
    intro hcon
    rcases mul_eq_zero.mp hcon with hcon | hcon
    · norm_num at hcon
    · exact hv hcon
  have hcols : (List.range (tripleDF col).names.length).map
        (fun j => svar (colAt (DF.dropna (tripleDF col)) j)) =
      (List.range (tripleDF col).names.length).map
        (fun j => some (specVar (col.filterMap id))) := by
    apply List.map_congr_left
    intro j hj
    have hj3 : j < 3 := by
      rw [← h3]
      exact List.mem_range.mp hj
    rw [hl, colAt_triple _ j hj3, svar_of_two_le hn]
  rw [calculate_cronbach_alpha, if_neg hk2, hsv, Option.some_bind, if_neg hne,
    hcols, nansum_map_some, h3]
  have hsum : ((List.range 3).map
      (fun _ => specVar (col.filterMap id))).sum = 3 * specVar (col.filterMap id) := by
    rw [show List.range 3 = [0, 1, 2] from rfl]
    simp only [List.map_cons, List.map_nil, List.sum_cons, List.sum_nil]
    ring
  rw [hsum]
  have : ((3 : ℚ) / ((3 : ℚ) - 1)) *
      (1 - 3 * specVar (col.filterMap id) / (9 * specVar (col.filterMap id))) = 1 := by
    field_simp
    ring
  rw [show ((3 : ℕ) : ℚ) = (3 : ℚ) from by norm_num, this]

/-- C10 witness: three identical columns over the values 1, 2, 4 (with a
dropped incomplete row) give alpha exactly 1. -/
theorem triple_identical_columns_witness :
    2 ≤ (([some 1, some 2, none, some 4] : List Val).filterMap id).length ∧
      specVar (([some 1, some 2, none, some 4] : List Val).filterMap id) ≠ 0 ∧
      calculate_cronbach_alpha (tripleDF [some 1, some 2, none, some 4]) = some 1 := by
  have h1 : 2 ≤ (([some 1, some 2, none, some 4] : List Val).filterMap id).length := by
    decide
  have h2 : specVar (([some 1, some 2, none, some 4] : List Val).filterMap id) ≠ 0 := by
    norm_num [specVar, mean, List.filterMap_cons]
  exact ⟨h1, h2, triple_identical_columns_alpha_one _ h1 h2⟩

/-- C2 counterexample: with the all-missing middle column, Python's `max`
keeps the NaN-scored first column as its running maximum (every comparison
against NaN is `False`), so the selected item is column 0 with NaN score
even though column 1's removal scores the real value `18/19` — the
selected item does not yield the highest alpha. -/
theorem greedy_selection_counterexample :
    bestItem allMissingMidDF [0, 1, 2] = (0, none) ∧
      itemScore allMissingMidDF [0, 1, 2] 1 = some (18/19) := by
  constructor <;>
    norm_num [bestItem, foldMax, itemScore, allMissingMidDF, nanLt, DF.select,
      calculate_cronbach_alpha, DF.dropna, completeRow, List.filterMap_cons,
      List.findIdx?, svar, specVar, mean, nansum, colAt, List.range_succ]

/-- C4 counterexample: with the all-missing first column the history is
`[NaN, 18/19]`, yet the returned max scenario is the step-0 entry with NaN
alpha — the comparison `new_alpha > best_alpha` is `False` against NaN, so
the real-valued entry never replaces it and `max_scenario` does not attain
the maximum alpha present in the history. -/
theorem max_scenario_counterexample :
    ((optimize_scale allMissingFirstDF (7/10)).2.2).alpha = none ∧
      (optimize_scale allMissingFirstDF (7/10)).1.get? 1 =
        some ⟨1, some 0, some (18/19), [1, 2]⟩ := by
  constructor <;>
    norm_num [optimize_scale, optLoop, bestItem, foldMax, itemScore,
      allMissingFirstDF, nanLt, nanGeQ, DF.select, calculate_cronbach_alpha,
      DF.dropna, completeRow, List.filterMap_cons, List.findIdx?, svar, specVar,
      mean, nansum, colAt, List.range_succ]

end CronbachApp
